import Mathlib

/-!
Shallow embedding of `src/main.go` (a binary-trees benchmark with Go arenas).

Modelling conventions:
* A Go `*Tree` pointer value is a `PTree`: `nilp` is the nil pointer and
  `node l r` is a non-nil pointer to a `Tree` struct whose `Left` field is `l`
  and whose `Right` field is `r`.
* A Go `*arena.Arena` argument is an `Option Unit`: `some ()` is a non-nil
  arena, `none` is the nil arena (the garbage-collected path).  The arena only
  determines where a node lives in memory; the zeroed node it returns is the
  same in both branches of `allocTreeNode`.
* Functions that can panic (nil-pointer dereference in `Count`) return
  `Option`; `none` is a panic.
* Go `int` is modelled as `Int` (the benchmark never exercises 64-bit
  overflow for the quantities the claims are about).
-/

/-- A Go `*Tree` pointer: `nilp` is `nil`; `node l r` points to a
`Tree{Left: l, Right: r}` struct. -/
inductive PTree where
  | nilp : PTree
  | node (left right : PTree) : PTree
deriving DecidableEq, Repr

/-- Embedding of `func (t *Tree) Count() int` (src/main.go lines 85-91).
The receiver is a pointer, so the argument is a `PTree`; calling `Count` on the
nil pointer dereferences nil (`t.Left`), which is a panic, modelled as `none`.
On a non-nil node the code tests only `t.Left`; if it is nil the node reports
itself as a leaf (returning 1) without looking at `t.Right`.  Otherwise it
returns `1 + t.Right.Count() + t.Left.Count()`, evaluating the right call
first, so a nil `Right` panics inside the recursive call. -/
def PTree.count : PTree → Option Nat
  | PTree.nilp => none
  | PTree.node left right =>
    match left with
    | PTree.nilp => some 1
    | PTree.node _ _ => do
      let cr ← right.count
      let cl ← left.count
      pure (1 + cr + cl)

/-- Embedding of `func allocTreeNode(a *arena.Arena) *Tree`
(src/main.go lines 112-118): both the arena branch (`arena.New[Tree](a)`) and
the GC branch (`&Tree{}`) return a pointer to a zero-valued `Tree`, i.e. a
node whose `Left` and `Right` fields are nil. -/
def allocTreeNode (a : Option Unit) : PTree :=
  match a with
  | some _ => PTree.node PTree.nilp PTree.nilp
  | none => PTree.node PTree.nilp PTree.nilp

/-- Field assignment `treePtr.Left = left; treePtr.Right = right` on a Go
`*Tree`.  Assigning through nil would panic; `allocTreeNode` never returns
nil, so the `nilp` case is unreachable in this program. -/
def setFields (t left right : PTree) : PTree :=
  match t with
  | PTree.nilp => PTree.nilp
  | PTree.node _ _ => PTree.node left right

/-- Recursion skeleton of `func NewTree(depth int, a *arena.Arena) *Tree`
(src/main.go lines 94-109), indexed by the number of remaining recursive
steps.  `NewTree` recurses on `depth - 1` while `depth > 0`, so the recursion
depth from `depth` is exactly `depth.toNat`; `newTreeNat a n` is the tree the
Go code builds when `n` such steps remain.  The `n + 1` case is the
`depth > 0` branch: build left, build right, allocate the node, set its
fields.  The `0` case is the `else` branch: return `allocTreeNode(a)`. -/
def newTreeNat (a : Option Unit) : Nat → PTree
  | 0 => allocTreeNode a
  | n + 1 =>
    let left := newTreeNat a n
    let right := newTreeNat a n
    setFields (allocTreeNode a) left right

/-- Embedding of `func NewTree(depth int, a *arena.Arena) *Tree`
(src/main.go lines 94-109).  The Go `depth` is an `int`, possibly negative;
the `if depth > 0` recursion bottoms out after exactly `depth.toNat` steps,
realized by `newTreeNat`.  The theorems `NewTree_pos` and `NewTree_nonpos`
below certify that this definition satisfies the two branches of the Go
source verbatim. -/
def NewTree (depth : Int) (a : Option Unit) : PTree :=
  newTreeNat a depth.toNat

/-- The completeness invariant of the data model (spec section 3): every node
has exactly zero or two children, and the whole value is a non-nil tree. -/
def PTree.complete : PTree → Bool
  | PTree.nilp => false
  | PTree.node PTree.nilp PTree.nilp => true
  | PTree.node PTree.nilp (PTree.node _ _) => false
  | PTree.node (PTree.node _ _) PTree.nilp => false
  | PTree.node (PTree.node a b) (PTree.node c d) =>
      PTree.complete (PTree.node a b) && PTree.complete (PTree.node c d)

theorem allocTreeNode_eq (a : Option Unit) :
    allocTreeNode a = PTree.node PTree.nilp PTree.nilp := by
  cases a <;> rfl

/-- Certification of the `depth > 0` branch of the Go `NewTree`. -/
theorem NewTree_pos (depth : Int) (a : Option Unit) (h : 0 < depth) :
    NewTree depth a =
      setFields (allocTreeNode a) (NewTree (depth - 1) a) (NewTree (depth - 1) a) := by
  unfold NewTree
  have h1 : depth.toNat = (depth - 1).toNat + 1 := by omega
  rw [h1]
  rfl

/-- Certification of the `else` branch of the Go `NewTree`. -/
theorem NewTree_nonpos (depth : Int) (a : Option Unit) (h : depth ≤ 0) :
    NewTree depth a = allocTreeNode a := by
  unfold NewTree
  have h1 : depth.toNat = 0 := by omega
  rw [h1]
  rfl

theorem newTreeNat_isNode (a : Option Unit) (n : Nat) :
    ∃ l r, newTreeNat a n = PTree.node l r := by
  cases n with
  | zero => exact ⟨PTree.nilp, PTree.nilp, by rw [newTreeNat, allocTreeNode_eq]⟩
  | succ n =>
    refine ⟨newTreeNat a n, newTreeNat a n, ?_⟩
    rw [newTreeNat, allocTreeNode_eq]
    rfl

/-- The structure built by `newTreeNat` does not depend on the arena. -/
theorem newTreeNat_arena (a b : Option Unit) (n : Nat) :
    newTreeNat a n = newTreeNat b n := by
  induction n with
  | zero => rw [newTreeNat, newTreeNat, allocTreeNode_eq, allocTreeNode_eq]
  | succ n ih =>
    rw [newTreeNat, newTreeNat, allocTreeNode_eq, allocTreeNode_eq]
    simp only [setFields]
    rw [ih]

theorem count_node_node (a b r : PTree) :
    (PTree.node (PTree.node a b) r).count =
      r.count.bind fun cr =>
        (PTree.node a b).count.bind fun cl => some (1 + cr + cl) := by
  rfl

theorem newTreeNat_count (a : Option Unit) (n : Nat) :
    (newTreeNat a n).count = some (2 ^ (n + 1) - 1) := by
  induction n with
  | zero => rw [newTreeNat, allocTreeNode_eq]; rfl
  | succ n ih =>
    obtain ⟨l, r, h⟩ := newTreeNat_isNode a n
    rw [newTreeNat, allocTreeNode_eq]
    simp only [setFields]
    rw [h, count_node_node, ← h, ih]
    simp only [Option.some_bind]
    have h2 : 2 ^ (n + 1 + 1) = 2 * 2 ^ (n + 1) := by ring
    have h3 : 1 ≤ 2 ^ (n + 1) := Nat.one_le_two_pow
    congr 1
    omega

theorem complete_node_node (a b c d : PTree) :
    (PTree.node (PTree.node a b) (PTree.node c d)).complete =
      ((PTree.node a b).complete && (PTree.node c d).complete) := by
  rfl

theorem newTreeNat_complete (a : Option Unit) (n : Nat) :
    (newTreeNat a n).complete = true := by
  induction n with
  | zero => rw [newTreeNat, allocTreeNode_eq]; rfl
  | succ n ih =>
    obtain ⟨l, r, h⟩ := newTreeNat_isNode a n
    rw [newTreeNat, allocTreeNode_eq]
    simp only [setFields]
    rw [h, complete_node_node, ← h, ih]
    rfl

theorem NewTree_count (depth : Int) (a : Option Unit) :
    (NewTree depth a).count = some (2 ^ (depth.toNat + 1) - 1) :=
  newTreeNat_count a depth.toNat

/-! ### The `Run` orchestrator (src/main.go lines 120-234)

Each goroutine is independent of the others (spec section 5: every task owns
its own arena and writes to its own result slot, and the only synchronization
is the final `wg.Wait()` join), so the concurrent run is modelled by the
deterministic data each task computes, a list of slot writes in launch order,
and the lines printed after the join. -/

/-- `minDepth` constant of `Run` (src/main.go line 124). -/
def minDepth : Int := 4

/-- The clamp at the top of `Run` (src/main.go lines 125-127):
`if maxDepth < minDepth+2 { maxDepth = minDepth + 2 }`. -/
def clampDepth (maxDepth : Int) : Int :=
  if maxDepth < minDepth + 2 then minDepth + 2 else maxDepth

/-- Go's `x << k` on `int` for a non-negative shift amount (the only case the
program exercises: `1 << (maxDepth - depth + minDepth)` with
`depth ≤ maxDepth`). -/
def intShl (x k : Int) : Int := x * 2 ^ k.toNat

/-- `iterations := 1 << (maxDepth - depth + minDepth)` (src/main.go line 177). -/
def bucketIterations (maxDepth depth : Int) : Int :=
  intShl 1 (maxDepth - depth + minDepth)

/-- The sequence of depths visited by the loop
`for depth := minDepth; depth <= maxDepth; depth += 2` (src/main.go line 176):
the i-th visited depth is `minDepth + 2*i`, and the loop runs while that is
at most `maxDepth`, i.e. for `(maxDepth - minDepth)/2 + 1` values when
`maxDepth ≥ minDepth`. -/
def depthSeq (maxDepth : Int) : List Int :=
  (List.range (((maxDepth - minDepth) / 2).toNat + 1)).map fun (i : Nat) =>
    minDepth + 2 * (i : Int)

/-- The data of one formatted report line (the wall-clock-free fields of the
`fmt.Sprintf` calls in `Run`): which category of line it is, the depth, the
arena count, the node count.  The `MB` field is `nodes*16/2^20` rendered as a
float, a pure function of `nodes`, so it is not repeated here. -/
inductive Line where
  | stretch (depth : Int) (arenas : Nat) (nodes : Nat) : Line
  | trees (iterations : Int) (depth : Int) (arenas : Nat) (nodes : Nat) : Line
  | longLived (depth : Int) (arenas : Nat) (nodes : Nat) : Line
deriving DecidableEq, Repr

/-- The loop-local state of one depth-bucket goroutine
(src/main.go lines 187-203): `arenaCount`, `allocated` (a Go `int`, compared
against the `minalloc` threshold), and the accumulated `nodes` total. -/
structure WorkerState where
  arenaCount : Nat
  allocated : Int
  nodes : Nat
deriving DecidableEq, Repr

/-- Initial worker state: `treeArena := arena.NewArena(); arenaCount := 1;
allocated := 0; nodes := 0` (src/main.go lines 187-191). -/
def workerInit : WorkerState := ⟨1, 0, 0⟩

/-- One iteration of the depth-bucket loop body (src/main.go lines 192-203),
with `T = int(*minAllocMB * (1 << 20))` the byte threshold: if
`allocated > T`, free the arena, allocate a fresh one (`arenaCount++`,
`allocated = 0`); then build a tree of depth `d` in the current arena, count
it, and accumulate `nodes += newNodes` and `allocated += newNodes * 16`. -/
def workerStep (d T : Int) (s : WorkerState) : WorkerState :=
  let s1 := if T < s.allocated then
      { arenaCount := s.arenaCount + 1, allocated := 0, nodes := s.nodes }
    else s
  let newNodes : Nat := (PTree.count (NewTree d (some ()))).getD 0
  { arenaCount := s1.arenaCount,
    allocated := s1.allocated + ((newNodes * 16 : Nat) : Int),
    nodes := s1.nodes + newNodes }

/-- `for i := 0; i < iterations; i++ { ... }`: iterate `workerStep` `n`
times starting from `s`. -/
def workerLoop (d T : Int) : Nat → WorkerState → WorkerState
  | 0, s => s
  | n + 1, s => workerLoop d T n (workerStep d T s)

/-- The stretch-tree goroutine's report line (src/main.go lines 137-153):
a tree of depth `maxDepth+1` built in its own arena, counted, reported with
an arena count of 1. -/
def stretchLine (maxDepth : Int) : Line :=
  Line.stretch (maxDepth + 1) 1 ((PTree.count (NewTree (maxDepth + 1) (some ()))).getD 0)

/-- One depth-bucket goroutine's report line (src/main.go lines 181-215). -/
def bucketLine (maxDepth T depth : Int) : Line :=
  let iterations := bucketIterations maxDepth depth
  let s := workerLoop depth T iterations.toNat workerInit
  Line.trees iterations depth s.arenaCount s.nodes

/-- The long-lived tree's report line, computed by the main goroutine after
the join (src/main.go lines 222-228). -/
def longLivedLine (maxDepth : Int) : Line :=
  Line.longLived maxDepth 1 ((PTree.count (NewTree maxDepth (some ()))).getD 0)

/-- The content of result slot `i` after a list of `(index, line)` writes has
been applied in order to the `outBuff` array: the last write to index `i`
wins; `none` means the slot was never written (an empty string in Go). -/
def slotVal (writes : List (Nat × Line)) (i : Nat) : Option Line :=
  ((writes.filter fun w => w.fst == i).getLast?).map Prod.snd

/-- The observable behaviour of one `Run` call: the size of `outBuff`, the
slot writes performed by the launched goroutines (in launch order; each
write's index is fixed at launch time), and the lines printed at the end. -/
structure RunTrace where
  outSize : Nat
  writes : List (Nat × Line)
  printed : List (Option Line)
deriving DecidableEq, Repr

/-- Embedding of `func Run(maxDepth int)` (src/main.go lines 120-234),
parameterized by the byte threshold `T = int(*minAllocMB * (1 << 20))` and
the `-single` flag.  In single mode `Run` returns right after waiting for the
stretch goroutine (src/main.go lines 154-158): the long-lived tree and the
depth loop never run and the print loop (lines 230-233) is never reached, so
nothing is printed even though slot 0 was written.  Otherwise the stretch
goroutine writes slot 0, the i-th depth bucket writes slot `i+1` (`outCurr`
is incremented before each launch), the long-lived line is written to slot
`outSize-1` after the join, and every slot of `outBuff` is printed in index
order. -/
def goRun (maxDepth0 T : Int) (single : Bool) : RunTrace :=
  let maxDepth := clampDepth maxDepth0
  let outSize := (3 + (maxDepth - minDepth) / 2).toNat
  let w0 : Nat × Line := (0, stretchLine maxDepth)
  if single then
    { outSize := outSize, writes := [w0], printed := [] }
  else
    let bucketWrites := (depthSeq maxDepth).enum.map fun p =>
      (p.fst + 1, bucketLine maxDepth T p.snd)
    let writes := w0 :: bucketWrites ++ [(outSize - 1, longLivedLine maxDepth)]
    { outSize := outSize,
      writes := writes,
      printed := (List.range outSize).map (slotVal writes) }

/-! ### The entry point (src/main.go lines 236-275) -/

/-- Embedding of `strconv.Atoi`: an optional `+`/`-` sign followed by at
least one decimal digit and nothing else, with the value required to fit in
a 64-bit `int`; every other string makes `Atoi` return an error (`none`). -/
def goAtoi (s : String) : Option Int :=
  let p : Int × List Char :=
    match s.data with
    | '+' :: rest => (1, rest)
    | '-' :: rest => (-1, rest)
    | rest => (1, rest)
  if p.snd.isEmpty then none
  else if p.snd.all Char.isDigit then
    let v : Int := p.fst * (p.snd.foldl (fun acc c => acc * 10 + (c.toNat - '0'.toNat)) 0 : Nat)
    if -(2 ^ 63) ≤ v ∧ v ≤ 2 ^ 63 - 1 then some v else none
  else none

/-- What `main` does with its positional arguments: either it calls
`Run` with some depth, or it dies in `log.Fatal` (which prints the message
and exits before `Run` is reached). -/
inductive MainOutcome where
  | fatal (msg : String) : MainOutcome
  | ran (depth : Int) : MainOutcome
deriving DecidableEq, Repr

/-- Embedding of the argument handling in `func main`
(src/main.go lines 265-274): `n := 21`; if a positional argument is present,
`n, err = strconv.Atoi(flag.Arg(0))` and a parse error is fatal; otherwise
`Run(n)` is called. -/
def mainOutcome (args : List String) : MainOutcome :=
  match args with
  | [] => MainOutcome.ran 21
  | a :: _ =>
    match goAtoi a with
    | some n => MainOutcome.ran n
    | none => MainOutcome.fatal "must specify binary tree depth as integer"

/-! ### Claim theorems -/

/-- C1: For every depth `d ≥ 0` and for both allocation modes (a region
supplied or none), counting the tree returned by `build(d)` yields exactly
`2^(d+1) - 1` nodes. -/
theorem newTree_count_pow (d : Int) (h : 0 ≤ d) (a : Option Unit) :
    (NewTree d a).count = some (2 ^ (d.toNat + 1) - 1) :=
  NewTree_count d a

theorem newTree_count_pow_witness :
    (0 : Int) ≤ 2 ∧ (NewTree 2 none).count = some (2 ^ ((2 : Int).toNat + 1) - 1) :=
  ⟨by decide, newTree_count_pow 2 (by decide) none⟩

/-- C6: For every depth `d ≥ 0`, a tree built with a region supplied and a
tree built with no region are structurally equivalent (same shape, same node
count): the allocation strategy does not affect the logical result of
`build`. -/
theorem newTree_arena_irrelevant (d : Int) (h : 0 ≤ d) (a : Option Unit) :
    NewTree d a = NewTree d none ∧ (NewTree d a).count = (NewTree d none).count :=
  have h1 : NewTree d a = NewTree d none := newTreeNat_arena a none d.toNat
  ⟨h1, by rw [h1]⟩

theorem newTree_arena_irrelevant_witness :
    (0 : Int) ≤ 3 ∧ NewTree 3 (some ()) = NewTree 3 none :=
  ⟨by decide, (newTree_arena_irrelevant 3 (by decide) (some ())).1⟩

/-- C10: `build` (`NewTree`) is a total, terminating function for every
integer depth, including negative depths (it is definable by structural
recursion on `depth.toNat`, `NewTree_pos`/`NewTree_nonpos` certifying the two
source branches); it always returns a well-formed complete tree, and for
every depth `≤ 0` it returns a single leaf node (both child edges absent), so
no caller-side non-negativity precondition is required. -/
theorem newTree_total_leaf (d : Int) (a : Option Unit) :
    (NewTree d a).complete = true ∧
      (d ≤ 0 → NewTree d a = PTree.node PTree.nilp PTree.nilp) := by
  constructor
  · exact newTreeNat_complete a d.toNat
  · intro h
    rw [NewTree_nonpos d a h, allocTreeNode_eq]

theorem newTree_total_leaf_witness :
    (-7 : Int) ≤ 0 ∧ NewTree (-7) (some ()) = PTree.node PTree.nilp PTree.nilp :=
  ⟨by decide, (newTree_total_leaf (-7) (some ())).2 (by decide)⟩

/-- C7 counterexample: `Count` does silently tolerate a malformed
single-child tree.  The two-node tree whose root has an absent left child and
a present right child is not complete, yet `Count` returns the normal value 1
for it (treating it as a leaf and ignoring the right subtree) instead of
failing. -/
theorem count_tolerates_missing_left :
    (PTree.node PTree.nilp (PTree.node PTree.nilp PTree.nilp)).complete = false ∧
    (PTree.node PTree.nilp (PTree.node PTree.nilp PTree.nilp)).count = some 1 :=
  ⟨rfl, rfl⟩

/-- C7 amended: on every tree satisfying the completeness invariant, `count`
returns a defined integer `n ≥ 1`, equal to 1 on a leaf and to
`1 + count(right) + count(left)` on an inner node, so deciding leaf-ness from
the left edge alone is correct there.  On malformed single-child trees the
implementation is asymmetric: a node with an absent left child is silently
counted as a leaf (value 1), while a node with a present left child and an
absent right child panics (nil dereference). -/
theorem count_complete_correct :
    (∀ t : PTree, t.complete = true → ∃ n, t.count = some n ∧ 1 ≤ n ∧
       (t = PTree.node PTree.nilp PTree.nilp → n = 1) ∧
       (∀ l r, t = PTree.node l r → l ≠ PTree.nilp →
         ∃ cl cr, l.count = some cl ∧ r.count = some cr ∧ n = 1 + cr + cl)) ∧
    (∀ r, (PTree.node PTree.nilp r).count = some 1) ∧
    (∀ l r, (PTree.node (PTree.node l r) PTree.nilp).count = none) := by
  refine ⟨?_, fun r => rfl, fun l r => rfl⟩
  intro t
  induction t with
  | nilp => intro h; exact absurd h (by rw [PTree.complete]; simp)
  | node l r ihl ihr =>
    intro h
    match l, r with
    | PTree.nilp, PTree.nilp =>
      refine ⟨1, rfl, le_refl 1, fun _ => rfl, ?_⟩
      intro l' r' heq hne
      injection heq with h1 h2
      exact absurd h1.symm hne
    | PTree.nilp, PTree.node c d =>
      exact absurd h (by rw [PTree.complete]; simp)
    | PTree.node a b, PTree.nilp =>
      exact absurd h (by rw [PTree.complete]; simp)
    | PTree.node a b, PTree.node c d =>
      rw [complete_node_node, Bool.and_eq_true] at h
      obtain ⟨cl, hcl, hcl1, -, -⟩ := ihl h.1
      obtain ⟨cr, hcr, hcr1, -, -⟩ := ihr h.2
      refine ⟨1 + cr + cl, ?_, ?_, ?_, ?_⟩
      · rw [count_node_node, hcr, hcl]; rfl
      · omega
      · intro heq
        injection heq with h1 h2
        exact PTree.noConfusion h1
      · intro l' r' heq hne
        injection heq with h1 h2
        exact ⟨cl, cr, h1 ▸ hcl, h2 ▸ hcr, rfl⟩

theorem count_complete_correct_witness :
    ∃ n, (PTree.node PTree.nilp PTree.nilp).count = some n ∧ 1 ≤ n ∧
      (PTree.node PTree.nilp PTree.nilp = PTree.node PTree.nilp PTree.nilp → n = 1) ∧
      (∀ l r, PTree.node PTree.nilp PTree.nilp = PTree.node l r → l ≠ PTree.nilp →
        ∃ cl cr, l.count = some cl ∧ r.count = some cr ∧ n = 1 + cr + cl) :=
  count_complete_correct.1 (PTree.node PTree.nilp PTree.nilp) rfl

/-- C9: the entry point uses depth 21 when no positional argument is given;
when the positional argument is present but not parseable as an integer
(e.g. `"abc"`), it reports a fatal, user-visible error and terminates
immediately without running the benchmark; a parseable argument runs the
benchmark at the parsed depth. -/
theorem main_arg_handling :
    mainOutcome [] = MainOutcome.ran 21 ∧
    (∀ a rest, goAtoi a = none →
      mainOutcome (a :: rest) =
        MainOutcome.fatal "must specify binary tree depth as integer") ∧
    (∀ a rest n, goAtoi a = some n → mainOutcome (a :: rest) = MainOutcome.ran n) ∧
    goAtoi "abc" = none := by
  refine ⟨rfl, ?_, ?_, by decide⟩
  · intro a rest h
    simp [mainOutcome, h]
  · intro a rest n h
    simp [mainOutcome, h]

theorem main_arg_handling_witness :
    mainOutcome ["abc"] = MainOutcome.fatal "must specify binary tree depth as integer" :=
  main_arg_handling.2.1 "abc" [] main_arg_handling.2.2.2

/-- C2 counterexample: with the `-single` flag, `Run` returns right after
`wg.Wait()` (src/main.go lines 154-158), before the print loop, so it prints
zero output lines, not exactly one: at input depth 0 (threshold 1 MiB) the
printed list is empty. -/
theorem singleMode_prints_nothing :
    (goRun 0 1048576 true).printed = [] ∧
    (goRun 0 1048576 true).printed.length ≠ 1 :=
  ⟨rfl, by decide⟩

/-- C2 amended: when the `-single` flag is set, the run waits only for the
stretch-tree task and then stops: no long-lived-tree or depth-loop work is
performed (the only slot write is the stretch task's write to slot 0), and
nothing at all is printed — the stretch report line is written to the result
buffer but the print loop is never reached, so the run produces zero output
lines rather than one. -/
theorem singleMode_trace (d T : Int) :
    (goRun d T true).printed = [] ∧
    (goRun d T true).writes = [(0, stretchLine (clampDepth d))] :=
  ⟨rfl, rfl⟩

/-! ### The region-reuse policy (C3) -/

theorem bucketTreeNodes_eq (d : Int) :
    (PTree.count (NewTree d (some ()))).getD 0 = 2 ^ (d.toNat + 1) - 1 := by
  rw [NewTree_count]
  rfl

theorem workerStep_eq_pos (d T : Int) (s : WorkerState) (h : T < s.allocated) :
    workerStep d T s =
      ⟨s.arenaCount + 1, (((2 ^ (d.toNat + 1) - 1) * 16 : Nat) : Int),
        s.nodes + (2 ^ (d.toNat + 1) - 1)⟩ := by
  unfold workerStep
  rw [bucketTreeNodes_eq, if_pos h]
  simp

theorem workerStep_eq_neg (d T : Int) (s : WorkerState) (h : ¬ T < s.allocated) :
    workerStep d T s =
      ⟨s.arenaCount, s.allocated + (((2 ^ (d.toNat + 1) - 1) * 16 : Nat) : Int),
        s.nodes + (2 ^ (d.toNat + 1) - 1)⟩ := by
  unfold workerStep
  rw [bucketTreeNodes_eq, if_neg h]

theorem workerStep_allocated (d T : Int) (s : WorkerState) :
    (workerStep d T s).allocated ≤
      max T 0 + (((2 ^ (d.toNat + 1) - 1) * 16 : Nat) : Int) := by
  have hb : (0 : Int) ≤ (((2 ^ (d.toNat + 1) - 1) * 16 : Nat) : Int) :=
    Int.natCast_nonneg _
  by_cases h : T < s.allocated
  · rw [workerStep_eq_pos d T s h]
    simp only []
    omega
  · rw [workerStep_eq_neg d T s h]
    simp only []
    omega

theorem workerLoop_allocated_aux (d T : Int) (n : Nat) :
    ∀ s : WorkerState,
      s.allocated ≤ max T 0 + (((2 ^ (d.toNat + 1) - 1) * 16 : Nat) : Int) →
      (workerLoop d T n s).allocated ≤
        max T 0 + (((2 ^ (d.toNat + 1) - 1) * 16 : Nat) : Int) := by
  induction n with
  | zero => intro s hs; exact hs
  | succ n ih =>
    intro s hs
    rw [workerLoop]
    exact ih _ (workerStep_allocated d T s)

/-- C3: in each depth-bucket task's iteration loop, the cumulative bytes
allocated from the current region (counted as `node_count * node_size` with
`node_size = 16`) never exceed the byte threshold
`T = int(minalloc * 2^20)` by more than the size of the single tree whose
construction pushed it past the threshold: after any number of loop
iterations, `allocated ≤ max T 0 + one tree's bytes`; and whenever the
accumulated amount exceeds the threshold, the step releases the region,
replaces it (incrementing the arena counter) and resets the byte counter
before building the tree, so the state after that step carries exactly one
tree's worth of bytes. -/
theorem worker_allocated_bounded (d T : Int) :
    (∀ n : Nat, (workerLoop d T n workerInit).allocated ≤
        max T 0 + (((2 ^ (d.toNat + 1) - 1) * 16 : Nat) : Int)) ∧
    (∀ s : WorkerState, T < s.allocated →
      workerStep d T s =
        ⟨s.arenaCount + 1, (((2 ^ (d.toNat + 1) - 1) * 16 : Nat) : Int),
          s.nodes + (2 ^ (d.toNat + 1) - 1)⟩) := by
  constructor
  · intro n
    apply workerLoop_allocated_aux
    have hb : (0 : Int) ≤ (((2 ^ (d.toNat + 1) - 1) * 16 : Nat) : Int) :=
      Int.natCast_nonneg _
    show (0 : Int) ≤ _
    omega
  · exact workerStep_eq_pos d T

theorem worker_allocated_bounded_witness :
    ((100 : Int) < (⟨1, 200, 0⟩ : WorkerState).allocated) ∧
    workerStep 4 100 ⟨1, 200, 0⟩ =
      ⟨1 + 1, (((2 ^ ((4 : Int).toNat + 1) - 1) * 16 : Nat) : Int),
        0 + (2 ^ ((4 : Int).toNat + 1) - 1)⟩ :=
  ⟨by decide, (worker_allocated_bounded 4 100).2 ⟨1, 200, 0⟩ (by decide)⟩

/-! ### The iteration count formula (C4) -/

/-- C4: for every depth `d` iterated over in the main loop (the loop visits
exactly the depths from `minDepth` to `maxDepth` in steps of 2), the number
of iterations assigned to that depth's task equals
`2^(maxDepth - d + minDepth)`; in particular for `maxDepth = 6`: depth 4 gets
`2^6 = 64` iterations and depth 6 gets `2^4 = 16`. -/
theorem bucket_iterations_formula :
    (∀ maxD d : Int, 6 ≤ maxD →
      (d ∈ depthSeq maxD ↔ minDepth ≤ d ∧ d ≤ maxD ∧ 2 ∣ (d - minDepth))) ∧
    (∀ maxD d : Int, d ∈ depthSeq maxD →
      bucketIterations maxD d = 2 ^ (maxD - d + minDepth).toNat) ∧
    bucketIterations 6 4 = 64 ∧
    bucketIterations 6 6 = 16 := by
  refine ⟨?_, ?_, by decide, by decide⟩
  · intro maxD d h6
    constructor
    · intro hmem
      rw [depthSeq] at hmem
      obtain ⟨i, hi, hd⟩ := List.mem_map.mp hmem
      rw [List.mem_range] at hi
      subst hd
      simp only [minDepth] at hi ⊢
      refine ⟨by omega, by omega, ⟨(i : Int), by omega⟩⟩
    · rintro ⟨h1, h2, k, hk⟩
      rw [depthSeq]
      refine List.mem_map.mpr ⟨((d - minDepth) / 2).toNat, ?_, ?_⟩
      · rw [List.mem_range]
        simp only [minDepth] at h1 hk ⊢
        omega
      · simp only [minDepth] at h1 hk ⊢
        omega
  · intro maxD d hmem
    simp only [bucketIterations, intShl, one_mul]

theorem bucket_iterations_formula_witness :
    ((4 : Int) ∈ depthSeq 6) ∧
    bucketIterations 6 4 = 2 ^ ((6 : Int) - 4 + minDepth).toNat :=
  ⟨by decide, bucket_iterations_formula.2.1 6 4 (by decide)⟩

/-! ### End-to-end run at input depth 0 (C5) -/

set_option maxRecDepth 100000 in
/-- C5: for every input depth, the orchestrator clamps `maxDepth` so that
`maxDepth ≥ minDepth + 2` (with `minDepth = 4`); input depth 0 is clamped to
`maxDepth = 6`; the run (at the default 1 MiB threshold, `T = 1048576`)
prints exactly `3 + (6-4)/2 = 4` result lines, all of them written; the
stretch tree (depth 7) counts 255 nodes and the long-lived tree (depth 6)
counts 127 nodes. -/
theorem run_depth0_end_to_end :
    (∀ d : Int, minDepth + 2 ≤ clampDepth d) ∧
    clampDepth 0 = 6 ∧
    (goRun 0 1048576 false).printed.length = 4 ∧
    (∀ x ∈ (goRun 0 1048576 false).printed, x.isSome = true) ∧
    slotVal (goRun 0 1048576 false).writes 0 = some (Line.stretch 7 1 255) ∧
    slotVal (goRun 0 1048576 false).writes 3 = some (Line.longLived 6 1 127) := by
  refine ⟨?_, by decide, by decide, by decide, by decide, by decide⟩
  intro d
  simp only [clampDepth, minDepth]
  split <;> omega

/-! ### Result-slot assignment and output order (C8) -/

theorem clampDepth_ge (d : Int) : 6 ≤ clampDepth d := by
  simp only [clampDepth, minDepth]
  split <;> omega

theorem depthSeq_length (maxD : Int) :
    (depthSeq maxD).length = ((maxD - minDepth) / 2).toNat + 1 := by
  simp [depthSeq]

theorem outSize_eq (d : Int) :
    (3 + (clampDepth d - minDepth) / 2).toNat =
      ((clampDepth d - minDepth) / 2).toNat + 3 := by
  have h := clampDepth_ge d
  simp only [minDepth] at h ⊢
  omega

/-- With a duplicate-free index column, the writes to index `i` are exactly
the single recorded write `(i, x)`. -/
theorem filter_key_singleton (l : List (Nat × Line)) (i : Nat) (x : Line)
    (hnd : (l.map Prod.fst).Nodup) (hm : (i, x) ∈ l) :
    l.filter (fun w => w.fst == i) = [(i, x)] := by
  induction l with
  | nil => cases hm
  | cons hd tl ih =>
    rw [List.map_cons, List.nodup_cons] at hnd
    rcases List.mem_cons.mp hm with heq | hmem
    · subst heq
      rw [List.filter_cons_of_pos (by simp)]
      have hnil : tl.filter (fun w => w.fst == i) = [] := by
        rw [List.filter_eq_nil_iff]
        intro a ha hb
        have ha2 : a.fst = i := by simpa using hb
        have ha3 : a.fst ∈ tl.map Prod.fst := List.mem_map_of_mem Prod.fst ha
        rw [ha2] at ha3
        exact hnd.1 ha3
      rw [hnil]
    · have hne : ¬ ((fun w : Nat × Line => w.fst == i) hd = true) := by
        intro hb
        have h1 : hd.fst = i := by simpa using hb
        have h2 : i ∈ tl.map Prod.fst := by
          have h3 := List.mem_map_of_mem Prod.fst hmem
          simpa using h3
        exact hnd.1 (h1 ▸ h2)
      rw [List.filter_cons_of_neg (p := fun w : Nat × Line => w.fst == i) hne]
      exact ih hnd.2 hmem

/-- If every slot index is written at most once, the slot holds exactly the
line recorded for it. -/
theorem slotVal_of_mem (l : List (Nat × Line)) (i : Nat) (x : Line)
    (hnd : (l.map Prod.fst).Nodup) (hm : (i, x) ∈ l) :
    slotVal l i = some x := by
  rw [slotVal, filter_key_singleton l i x hnd hm]
  rfl

theorem goRun_false_writes (maxDepth0 T : Int) :
    (goRun maxDepth0 T false).writes =
      (0, stretchLine (clampDepth maxDepth0)) ::
        ((depthSeq (clampDepth maxDepth0)).enum.map fun p =>
          (p.fst + 1, bucketLine (clampDepth maxDepth0) T p.snd)) ++
        [((3 + (clampDepth maxDepth0 - minDepth) / 2).toNat - 1,
          longLivedLine (clampDepth maxDepth0))] := rfl

theorem goRun_false_outSize (maxDepth0 T : Int) :
    (goRun maxDepth0 T false).outSize =
      (3 + (clampDepth maxDepth0 - minDepth) / 2).toNat := rfl

/-- The index column of the writes of a non-single run is exactly
`[0, 1, ..., outSize-1]` in that order: the stretch task owns slot 0, the
depth buckets own slots `1 .. outSize-2` in ascending depth order, the
long-lived line owns the final slot, and no index repeats. -/
theorem goRun_false_writes_fst (maxDepth0 T : Int) :
    (goRun maxDepth0 T false).writes.map Prod.fst =
      List.range (goRun maxDepth0 T false).outSize := by
  rw [goRun_false_writes, goRun_false_outSize, outSize_eq]
  simp only [List.map_cons, List.map_append, List.map_nil, List.map_map]
  rw [show (Prod.fst ∘ fun p : Nat × Int =>
        (p.fst + 1, bucketLine (clampDepth maxDepth0) T p.snd)) =
      ((fun x : Nat => x + 1) ∘ Prod.fst) from rfl]
  rw [← List.map_map, List.enum_map_fst, depthSeq_length]
  generalize ((clampDepth maxDepth0 - minDepth) / 2).toNat = m
  have e0 : m + 3 - 1 = m + 2 := by omega
  have e1 : List.range (m + 3) = List.range (m + 2) ++ [m + 2] := by
    have e : m + 3 = (m + 2) + 1 := by omega
    rw [e, List.range_succ]
  have e2 : List.range (m + 2) = 0 :: (List.range (m + 1)).map Nat.succ := by
    have e : m + 2 = (m + 1) + 1 := by omega
    rw [e, List.range_succ_eq_map]
  rw [e0, e1, e2, List.cons_append]

/-- C8: every launched task writes its report line to a statically distinct
result-slot index — the stretch task to slot 0, the i-th depth bucket (in
ascending depth order) to slot `i+1`, i.e. slots 1 through `outSize-2`, and
the long-lived line to the final slot `outSize-1`.  The index column of the
writes is exactly `[0, ..., outSize-1]`, so the indices are pairwise distinct
and each slot is written exactly once; consequently each slot ends up holding
exactly the line written to it, and in non-single mode the printed output is
the result buffer read in ascending slot order after all writes have been
applied. -/
theorem slots_distinct_ordered (maxDepth0 T : Int) :
    ((goRun maxDepth0 T false).writes.map Prod.fst =
      List.range (goRun maxDepth0 T false).outSize) ∧
    ((0, stretchLine (clampDepth maxDepth0)) ∈ (goRun maxDepth0 T false).writes) ∧
    (((goRun maxDepth0 T false).outSize - 1, longLivedLine (clampDepth maxDepth0)) ∈
      (goRun maxDepth0 T false).writes) ∧
    (∀ p ∈ (depthSeq (clampDepth maxDepth0)).enum,
      (p.fst + 1, bucketLine (clampDepth maxDepth0) T p.snd) ∈
        (goRun maxDepth0 T false).writes) ∧
    (∀ i x, (i, x) ∈ (goRun maxDepth0 T false).writes →
      slotVal (goRun maxDepth0 T false).writes i = some x) ∧
    ((goRun maxDepth0 T false).printed =
      (List.range (goRun maxDepth0 T false).outSize).map
        (slotVal (goRun maxDepth0 T false).writes)) := by
  refine ⟨goRun_false_writes_fst maxDepth0 T, ?_, ?_, ?_, ?_, rfl⟩
  · rw [goRun_false_writes]
    exact List.mem_cons_self _ _
  · rw [goRun_false_writes, goRun_false_outSize]
    exact List.mem_cons.mpr (Or.inr
      (List.mem_append_right _ (List.mem_singleton.mpr rfl)))
  · intro p hp
    rw [goRun_false_writes]
    exact List.mem_cons.mpr (Or.inr
      (List.mem_append_left _ (List.mem_map_of_mem _ hp)))
  · intro i x hm
    have hnd : ((goRun maxDepth0 T false).writes.map Prod.fst).Nodup := by
      rw [goRun_false_writes_fst]
      exact List.nodup_range _
    exact slotVal_of_mem _ i x hnd hm

theorem slots_distinct_ordered_witness :
    slotVal (goRun 0 1048576 false).writes 0 = some (stretchLine (clampDepth 0)) :=
  (slots_distinct_ordered 0 1048576).2.2.2.2.1 0 (stretchLine (clampDepth 0))
    (slots_distinct_ordered 0 1048576).2.1

set_option maxRecDepth 100000 in
theorem run_depth0_end_to_end_witness :
    (some (Line.stretch 7 1 255)).isSome = true :=
  run_depth0_end_to_end.2.2.2.1 (some (Line.stretch 7 1 255)) (by decide)
